import Mathlib

/-!
Verification of `codesign-verify-rs` (macOS backend and public façade).

The development shallowly embeds the two source files:
  * `src/lib.rs` — the public façade (`CodeSignVerifier`, `SignatureContext`,
    `Name`, `Error`);
  * `src/macos/context.rs` — the macOS `Context` with its property-graph
    traversal over the dictionaries returned by `SecCertificateCopyValues`
    and the auxiliary signing-information dictionary.

Core Foundation values are modelled by their observable shape.  The Security
framework guarantees (and the source relies on, via unchecked
`wrap_under_get_rule` casts) that a property's `kSecPropertyKeyType` tag
describes the runtime type of its `kSecPropertyKeyValue`; the model couples
the two, and represents distinguished-name attribute values — which the
platform delivers as `CFString`s — directly as `String`.
-/

/-- `Name` from `src/lib.rs`: four independent optional distinguished-name
attributes.  `derive(PartialEq)` in the source is structural equality,
modelled by Lean's structural equality on the structure. -/
structure Name where
  common_name : Option String
  organization : Option String
  organization_unit : Option String
  country : Option String
deriving DecidableEq

/-- One entry of a `"section"` property array (a sub-dictionary with an
optional `kSecPropertyKeyLabel` — an OID string — and an optional
`kSecPropertyKeyValue`, delivered by the platform as a `CFString` for
distinguished-name attributes). -/
structure SecEntry where
  label : Option String
  value : Option String
deriving DecidableEq

/-- A property of the `SecCertificateCopyValues` dictionary, coupling the
`kSecPropertyKeyType` tag with the shape of the `kSecPropertyKeyValue`:
`str` is a `"string"`-tagged property, `sect` a `"section"`-tagged property
whose value is an array of entries, `other` any other tag (value of an
unmodelled type), `missingType` a property dictionary without a Type key,
and `missingValue t` one with tag `t` but no Value key. -/
inductive SecProp where
  | str (s : String)
  | sect (entries : List SecEntry)
  | other (tag : String)
  | missingType
  | missingValue (tag : String)
deriving DecidableEq

/-- The `kSecPropertyKeyType` tag of a property, `none` when the Type key is
absent (`dict.find(SecProperty::Type.to_cfstr())?` in `Context::get`). -/
def SecProp.typeTag : SecProp → Option String
  | .str _ => some "string"
  | .sect _ => some "section"
  | .other t => some t
  | .missingType => none
  | .missingValue t => some t

/-- The untyped `CFType` value of a property as returned by `Context::get`:
a string, an array of section entries, or a value of an unmodelled type. -/
inductive CFTy where
  | str (s : String)
  | arr (entries : List SecEntry)
  | opaqueVal
deriving DecidableEq

/-- The `kSecPropertyKeyValue` of a property, `none` when the Value key is
absent (`dict.find(SecProperty::Value.to_cfstr())?` in `Context::get`). -/
def SecProp.value? : SecProp → Option CFTy
  | .str s => some (.str s)
  | .sect es => some (.arr es)
  | .other _ => some .opaqueVal
  | .missingType => none
  | .missingValue _ => none

/-- The auxiliary signing-information dictionary (`Context.all`), read by
`team_id`, `cd_hash` and `info_plist`: the `kSecCodeInfoUnique` code-directory
hash (a `CFData`, modelled as its bytes), the `kSecCodeInfoTeamIdentifier`
string and the `kSecCodeInfoPList` dictionary of strings. -/
structure SigningInfo where
  unique : Option (List Nat)
  teamIdent : Option String
  plist : Option (List (String × String))
deriving DecidableEq

/-- `Context` from `src/macos/context.rs`: the leaf certificate (modelled by
its DER bytes, as returned by `SecCertificateCopyData`), the
`SecCertificateCopyValues` dictionary keyed by OID strings, and the auxiliary
signing-information dictionary. -/
structure Context where
  cert : List Nat
  dict : List (String × SecProp)
  all : SigningInfo
deriving DecidableEq

/-- OID key strings of the `SecOID` enum (the `kSecOIDX509V1SubjectName`
family of constants; their concrete `CFString` contents are the dotted OIDs
documented on `Name` in `src/lib.rs`). -/
def oidSubjectName : String := "2.5.4.6.9.1"
def oidIssuerName : String := "2.5.4.6.9.2"
def oidSerial : String := "2.5.4.6.9.3"
def oidCommonName : String := "2.5.4.3"
def oidCountry : String := "2.5.4.6"
def oidOrg : String := "2.5.4.10"
def oidOrgUnit : String := "2.5.4.11"

/-- `Context::get`: look the key up in the certificate values dictionary,
require the Type tag to be present and equal to `wanted_kind`, then return
the Value. -/
def Context.get (c : Context) (key : String) (wantedKind : String) : Option CFTy := do
  let p ← c.dict.lookup key
  let kind ← p.typeTag
  if kind = wantedKind then p.value? else none

/-- `Context::get_as_section`: `get` with wanted kind `"section"`, the result
cast to an array of entries.  The source cast is unchecked
(`CFArray::wrap_under_get_rule`); it is sound because `get` has verified the
Type tag, which the model couples with the value's shape. -/
def Context.get_as_section (c : Context) (key : String) : Option (List SecEntry) :=
  (c.get key "section").bind fun v =>
    match v with
    | .arr es => some es
    | _ => none

/-- `Context::get_as_string`: `get` with wanted kind `"string"`, the result
cast to a string (unchecked in the source, sound by the tag check). -/
def Context.get_as_string (c : Context) (key : String) : Option String :=
  (c.get key "string").bind fun v =>
    match v with
    | .str s => some s
    | _ => none

/-- `Context::get_sub_value` composed with the `to_string` of
`Context::get_string`: iterate over the section's entries; an entry without a
Label key makes the whole scan return `None` (the `?` inside the loop); an
entry whose label differs from the searched label is skipped; the first entry
whose label matches yields its Value (or `None` if the Value key is absent —
the scan does not continue past a match). -/
def getSubValue : List SecEntry → String → Option String
  | [], _ => none
  | e :: rest, searchLabel => do
    let l ← e.label
    if l = searchLabel then e.value else getSubValue rest searchLabel

/-- `Context::name_for_field`: fetch the field's section once and resolve the
four `Name` fields by four independent label scans over it. -/
def Context.name_for_field (c : Context) (field : String) : Name :=
  let vals := c.get_as_section field
  { common_name := vals.bind fun a => getSubValue a oidCommonName
    country := vals.bind fun a => getSubValue a oidCountry
    organization := vals.bind fun a => getSubValue a oidOrg
    organization_unit := vals.bind fun a => getSubValue a oidOrgUnit }

/-- `Context::serial`. -/
def Context.serial (c : Context) : Option String :=
  c.get_as_string oidSerial

/-- `Context::subject_name`. -/
def Context.subject_name (c : Context) : Name :=
  c.name_for_field oidSubjectName

/-- `Context::issuer_name`. -/
def Context.issuer_name (c : Context) : Name :=
  c.name_for_field oidIssuerName

/-! ### SHA-256 (the `sha2` crate's `Sha256::digest`, FIPS 180-4)

Modelled over byte lists (`List Nat`, each byte below 256); 32-bit words are
`Nat` reduced modulo `2 ^ 32`. -/

/-- Reduce to a 32-bit word. -/
def w32 (n : Nat) : Nat := n % 4294967296

/-- Right-rotation of a 32-bit word. -/
def rotr32 (x n : Nat) : Nat :=
  w32 ((x >>> n) ||| (x <<< (32 - n)))

/-- Bitwise complement of a 32-bit word. -/
def not32 (x : Nat) : Nat := x ^^^ 4294967295

/-- Big-endian bytes of a 32-bit word. -/
def bytesBE4 (n : Nat) : List Nat :=
  [n / 16777216 % 256, n / 65536 % 256, n / 256 % 256, n % 256]

/-- Big-endian bytes of a 64-bit length field. -/
def bytesBE8 (n : Nat) : List Nat :=
  [n / 72057594037927936 % 256, n / 281474976710656 % 256,
   n / 1099511627776 % 256, n / 4294967296 % 256,
   n / 16777216 % 256, n / 65536 % 256, n / 256 % 256, n % 256]

/-- SHA-256 padding: append `0x80`, zeros, and the 64-bit big-endian bit
length, to a multiple of 64 bytes. -/
def sha256pad (msg : List Nat) : List Nat :=
  let zeros := (64 - (msg.length + 9) % 64) % 64
  msg ++ 128 :: List.replicate zeros 0 ++ bytesBE8 (msg.length * 8)

/-- Group bytes into big-endian 32-bit words. -/
def toWordsBE : List Nat → List Nat
  | b0 :: b1 :: b2 :: b3 :: rest =>
    (b0 * 16777216 + b1 * 65536 + b2 * 256 + b3) :: toWordsBE rest
  | _ => []

/-- Split into `n` blocks of 64 bytes. -/
def blocks64 : Nat → List Nat → List (List Nat)
  | 0, _ => []
  | n + 1, l => l.take 64 :: blocks64 n (l.drop 64)

/-- SHA-256 compression state: eight 32-bit words. -/
structure H8 where
  a : Nat
  b : Nat
  c : Nat
  d : Nat
  e : Nat
  f : Nat
  g : Nat
  h : Nat
deriving DecidableEq

/-- SHA-256 initial hash value (FIPS 180-4 §5.3.3, written in decimal). -/
def sha256init : H8 :=
  ⟨1779033703, 3144134277, 1013904242, 2773480762,
   1359893119, 2600822924, 528734635, 1541459225⟩

/-- SHA-256 round constants (FIPS 180-4 §4.2.2, written in decimal). -/
def sha256K : List Nat :=
  [1116352408, 1899447441, 3049323471, 3921009573, 961987163, 1508970993,
   2453635748, 2870763221, 3624381080, 310598401, 607225278, 1426881987,
   1925078388, 2162078206, 2614888103, 3248222580, 3835390401, 4022224774,
   264347078, 604807628, 770255983, 1249150122, 1555081692, 1996064986,
   2554220882, 2821834349, 2952996808, 3210313671, 3336571891, 3584528711,
   113926993, 338241895, 666307205, 773529912, 1294757372, 1396182291,
   1695183700, 1986661051, 2177026350, 2456956037, 2730485921, 2820302411,
   3259730800, 3345764771, 3516065817, 3600352804, 4094571909, 275423344,
   430227734, 506948616, 659060556, 883997877, 958139571, 1322822218,
   1537002063, 1747873779, 1955562222, 2024104815, 2227730452, 2361852424,
   2428436474, 2756734187, 3204031479, 3329325298]

/-- Message-schedule small sigma functions. -/
def ssig0 (x : Nat) : Nat := rotr32 x 7 ^^^ rotr32 x 18 ^^^ (x >>> 3)

def ssig1 (x : Nat) : Nat := rotr32 x 17 ^^^ rotr32 x 19 ^^^ (x >>> 10)

/-- Extend the 16 message words by `n` schedule words. -/
def extendWords (ws : List Nat) : Nat → List Nat
  | 0 => ws
  | n + 1 =>
    let prev := extendWords ws n
    let len := prev.length
    prev ++ [w32 (ssig1 (prev.getD (len - 2) 0) + prev.getD (len - 7) 0 +
      ssig0 (prev.getD (len - 15) 0) + prev.getD (len - 16) 0)]

/-- One SHA-256 round, consuming a (round constant, schedule word) pair. -/
def sha256round (s : H8) (kw : Nat × Nat) : H8 :=
  let s1 := rotr32 s.e 6 ^^^ rotr32 s.e 11 ^^^ rotr32 s.e 25
  let ch := (s.e &&& s.f) ^^^ (not32 s.e &&& s.g)
  let temp1 := w32 (s.h + s1 + ch + kw.1 + kw.2)
  let s0 := rotr32 s.a 2 ^^^ rotr32 s.a 13 ^^^ rotr32 s.a 22
  let maj := (s.a &&& s.b) ^^^ (s.a &&& s.c) ^^^ (s.b &&& s.c)
  let temp2 := w32 (s0 + maj)
  ⟨w32 (temp1 + temp2), s.a, s.b, s.c, w32 (s.d + temp1), s.e, s.f, s.g⟩

/-- Process one 64-byte block. -/
def sha256block (s : H8) (block : List Nat) : H8 :=
  let ws := extendWords (toWordsBE block) 48
  let t := (sha256K.zip ws).foldl sha256round s
  ⟨w32 (s.a + t.a), w32 (s.b + t.b), w32 (s.c + t.c), w32 (s.d + t.d),
   w32 (s.e + t.e), w32 (s.f + t.f), w32 (s.g + t.g), w32 (s.h + t.h)⟩

/-- SHA-256 digest of a byte list: 32 bytes. -/
def sha256 (msg : List Nat) : List Nat :=
  let padded := sha256pad msg
  let fin := (blocks64 (padded.length / 64) padded).foldl sha256block sha256init
  bytesBE4 fin.a ++ bytesBE4 fin.b ++ bytesBE4 fin.c ++ bytesBE4 fin.d ++
    bytesBE4 fin.e ++ bytesBE4 fin.f ++ bytesBE4 fin.g ++ bytesBE4 fin.h

/-! ### Thumbprint and the auxiliary signing-information accessors -/

/-- One lower-case hexadecimal digit (`0`–`9`, `a`–`f`). -/
def hexDigit (n : Nat) : Char :=
  if n < 10 then Char.ofNat (48 + n) else Char.ofNat (87 + n)

/-- The two lower-case hexadecimal characters of a byte — the model of
Rust's `format ("\x7b:02x\x7d", byte)` on a `u8`. -/
def hexPair (b : Nat) : List Char :=
  [hexDigit (b / 16 % 16), hexDigit (b % 16)]

/-- The string of the two hexadecimal characters of a byte. -/
def hexByte (b : Nat) : String :=
  String.mk (hexPair b)

/-- `Context::sha256_thumbprint`: SHA-256 over the certificate's DER bytes
(`SecCertificateCopyData`), rendered by folding `"\x7b:02x\x7d"`-formatted
bytes onto an initially empty string. -/
def Context.sha256_thumbprint (c : Context) : String :=
  (sha256 c.cert).foldl (fun s byte => s ++ hexByte byte) ""

/-- `Context::team_id`: the `kSecCodeInfoTeamIdentifier` entry of the
auxiliary dictionary, as a string. -/
def Context.team_id (c : Context) : Option String :=
  c.all.teamIdent

/-- `Context::cd_hash`: the `kSecCodeInfoUnique` entry of the auxiliary
dictionary, rendered as the concatenation of `"\x7b:02x\x7d"`-formatted
bytes (`map` + `collect`). -/
def Context.cd_hash (c : Context) : Option String :=
  c.all.unique.map fun bs => String.join (bs.map hexByte)

/-- `Context::info_plist`: the `kSecCodeInfoPList` entry of the auxiliary
dictionary. -/
def Context.info_plist (c : Context) : Option (List (String × String)) :=
  c.all.plist

/-- `Context::key`: look a string key up in a plist dictionary. -/
def Context.key (dict : List (String × String)) (k : String) : Option String :=
  dict.lookup k

/-- `HashMap::insert`: replace any existing binding of the key. -/
def mapInsert (m : List (String × String)) (k v : String) :
    List (String × String) :=
  (k, v) :: m.filter fun p => p.1 ≠ k

/-- `Context::additional_properties`: `None` when the code-directory hash is
unavailable (the `?` on `cd_hash`); otherwise a map assembled from the
available plist entries, the team identifier, and always the `cd_hash`. -/
def Context.additional_properties (c : Context) :
    Option (List (String × String)) := do
  let cdHash ← c.cd_hash
  let ret : List (String × String) := []
  let ret := match c.info_plist with
    | some infoPlist =>
      let ret := match Context.key infoPlist "CFBundleIdentifier" with
        | some bundleId => mapInsert ret "bundle_id" bundleId
        | none => ret
      let ret := match Context.key infoPlist "CFBundleShortVersionString" with
        | some shortVersion => mapInsert ret "short_version" shortVersion
        | none => ret
      match Context.key infoPlist "CFBundleVersion" with
        | some bundleVersion => mapInsert ret "bundle_version" bundleVersion
        | none => ret
    | none => ret
  let ret := match c.team_id with
    | some teamId => mapInsert ret "team_id" teamId
    | none => ret
  let ret := mapInsert ret "cd_hash" cdHash
  pure ret

/-! ### The public façade (`src/lib.rs`) -/

/-- `Error` from `src/lib.rs`.  `CFError` wraps an opaque Core Foundation
error object, modelled by an abstract code. -/
inductive Error where
  | Unsigned
  | OsError (code : Int)
  | InvalidPath
  | LeafCertNotFound
  | CFError (err : Nat)
deriving DecidableEq

/-- Modelled from the spec: the macOS `Verifier` (its module is not under
`src/`; only `src/lib.rs` declares its interface).  Per §4.1 a `Verifier`
owns a native handle to the resolved target and `verify(self, requirement)`
invokes the external OS trust provider, whose outcome is not computed by this
repository; the outcome is therefore carried as a field, a function of the
requirement string. -/
structure Verifier where
  verifyOutcome : String → Except Error Context

/-- Modelled from the spec: the external OS environment resolving paths and
process ids to verifiers (§4.1 `for_file` / `for_pid`; the platform
implementation is not under `src/`). -/
structure OsEnv where
  forFileOutcome : String → Except Error Verifier
  forPidOutcome : Int → Except Error Verifier

/-- Modelled from the spec: platform `Verifier::for_file`. -/
def Verifier.for_file (env : OsEnv) (path : String) : Except Error Verifier :=
  env.forFileOutcome path

/-- Modelled from the spec: platform `Verifier::for_pid`. -/
def Verifier.for_pid (env : OsEnv) (pid : Int) : Except Error Verifier :=
  env.forPidOutcome pid

/-- Modelled from the spec: platform `Verifier::verify`. -/
def Verifier.verify (v : Verifier) (requirement : String) :
    Except Error Context :=
  v.verifyOutcome requirement

/-- `CodeSignVerifier` from `src/lib.rs`: a single-field wrapper around the
platform `Verifier`. -/
structure CodeSignVerifier where
  inner : Verifier

/-- `SignatureContext` from `src/lib.rs`: a single-field wrapper around the
platform `Context`. -/
structure SignatureContext where
  inner : Context

/-- `CodeSignVerifier::for_file`:
`Verifier::for_file(path).map(|v| CodeSignVerifier(v))`. -/
def CodeSignVerifier.for_file (env : OsEnv) (path : String) :
    Except Error CodeSignVerifier :=
  (Verifier.for_file env path).map fun v => CodeSignVerifier.mk v

/-- `CodeSignVerifier::for_pid`:
`Verifier::for_pid(pid).map(|v| CodeSignVerifier(v))`. -/
def CodeSignVerifier.for_pid (env : OsEnv) (pid : Int) :
    Except Error CodeSignVerifier :=
  (Verifier.for_pid env pid).map fun v => CodeSignVerifier.mk v

/-- `CodeSignVerifier::verify`:
`self.0.verify(requirement).map(|c| SignatureContext(c))`. -/
def CodeSignVerifier.verify (v : CodeSignVerifier) (requirement : String) :
    Except Error SignatureContext :=
  (v.inner.verify requirement).map fun c => SignatureContext.mk c

/-- `SignatureContext::subject_name`: `self.0.subject_name()`. -/
def SignatureContext.subject_name (s : SignatureContext) : Name :=
  s.inner.subject_name

/-- `SignatureContext::issuer_name`: `self.0.issuer_name()`. -/
def SignatureContext.issuer_name (s : SignatureContext) : Name :=
  s.inner.issuer_name

/-- `SignatureContext::sha256_thumbprint`: `self.0.sha256_thumbprint()`. -/
def SignatureContext.sha256_thumbprint (s : SignatureContext) : String :=
  s.inner.sha256_thumbprint

/-- `SignatureContext::serial`: `self.0.serial()`. -/
def SignatureContext.serial (s : SignatureContext) : Option String :=
  s.inner.serial

/-- `SignatureContext::additional_properties`:
`self.0.additional_properties()`. -/
def SignatureContext.additional_properties (s : SignatureContext) :
    Option (List (String × String)) :=
  s.inner.additional_properties

/-! ### Spec-side description of name extraction (§4.2 of the spec)

These definitions transcribe the spec's words, to be compared with the
source-derived `Context.name_for_field`. -/

/-- The spec's section lookup: "look up the named property section (subject
or issuer) by its OID; if found and of the expected structural kind". -/
def specSection (c : Context) (oid : String) : Option (List SecEntry) :=
  match c.dict.lookup oid with
  | some (SecProp.sect es) => some es
  | _ => none

/-- The spec's scan: "linearly scan its entries" for one label OID, ignoring
entries bearing any other label, and take the found entry's text value. -/
def specScan : List SecEntry → String → Option String
  | [], _ => none
  | e :: rest, searchLabel =>
    if e.label = some searchLabel then e.value else specScan rest searchLabel

/-- The spec's extraction: the four recognized label OIDs looked up
independently over the section, not short-circuited. -/
def specNameForField (c : Context) (oid : String) : Name :=
  { common_name := (specSection c oid).bind fun es => specScan es oidCommonName
    organization := (specSection c oid).bind fun es => specScan es oidOrg
    organization_unit := (specSection c oid).bind fun es => specScan es oidOrgUnit
    country := (specSection c oid).bind fun es => specScan es oidCountry }

/-- The sixteen lower-case hexadecimal characters. -/
def hexLowerChars : List Char :=
  "0123456789abcdef".data

/-! ### Assembly blocks of the auxiliary map, and sample contexts -/

/-- One conditional insertion of a plist value into the auxiliary map. -/
def keyStep (infoPlist : List (String × String)) (plistKey mapKey : String)
    (ret : List (String × String)) : List (String × String) :=
  match Context.key infoPlist plistKey with
  | some v => mapInsert ret mapKey v
  | none => ret

/-- The plist-derived part of the auxiliary map (the `if let Some(info_plist)`
block of the source). -/
def plistBlock (ip : Option (List (String × String))) :
    List (String × String) :=
  match ip with
  | some infoPlist =>
    keyStep infoPlist "CFBundleVersion" "bundle_version"
      (keyStep infoPlist "CFBundleShortVersionString" "short_version"
        (keyStep infoPlist "CFBundleIdentifier" "bundle_id" []))
  | none => []

/-- The team-identifier step of the auxiliary map (the `if let Some(team_id)`
block of the source). -/
def teamBlock (t : Option String) (ret : List (String × String)) :
    List (String × String) :=
  match t with
  | some teamId => mapInsert ret "team_id" teamId
  | none => ret

/-- A sample distinguished-name section: four recognized entries and one
entry with an unrecognized OID. -/
def wEntries : List SecEntry :=
  [⟨some "2.16.840.1.113741.2", some "ignored"⟩,
   ⟨some oidCommonName, some "Developer ID Application"⟩,
   ⟨some oidCountry, some "US"⟩,
   ⟨some oidOrg, some "Apple Inc."⟩,
   ⟨some oidOrgUnit, some "Apple Certification Authority"⟩]

/-- A sample context with subject and issuer sections. -/
def wCtx : Context :=
  ⟨[], [(oidSubjectName, SecProp.sect wEntries),
        (oidIssuerName, SecProp.sect [⟨some oidOrg, some "Apple Inc."⟩])],
   ⟨none, none, none⟩⟩

/-- A sample context whose auxiliary dictionary has only the
code-directory hash. -/
def ctxCd : Context := ⟨[], [], ⟨some [10], none, none⟩⟩

/-- A sample section in which the common-name entry's value is missing while
the other three recognized entries decode. -/
def wEs4 : List SecEntry :=
  [⟨some oidCommonName, none⟩,
   ⟨some oidOrg, some "Acme"⟩,
   ⟨some oidOrgUnit, some "Unit"⟩,
   ⟨some oidCountry, some "US"⟩]

/-- A sample context holding that section as its subject name. -/
def wCtx4 : Context :=
  ⟨[], [(oidSubjectName, SecProp.sect wEs4)], ⟨none, none, none⟩⟩

/-- The context of the repository's own macOS test (`tests::test_signed` in
`src/lib.rs`): `/sbin/ping`, whose signing information carries the
code-directory hash the test asserts, and for which the test expects
`additional_properties()` to also bind `"platform_id"`. -/
def pingContext : Context :=
  ⟨[], [], ⟨some [0xAE, 0xE9, 0x7B, 0x85, 0x0A, 0x12, 0xF9, 0xCA, 0xC3, 0xEC,
                  0x39, 0x90, 0x94, 0x07, 0x1C, 0xAD, 0x63, 0x32, 0x58, 0x18],
            none, none⟩⟩

/-- Two sample contexts sharing certificate bytes but nothing else. -/
def ctxA : Context := ⟨[1, 2, 3], [], ⟨none, none, none⟩⟩

/-- The second of the two: same certificate bytes, different dictionaries. -/
def ctxB : Context :=
  ⟨[1, 2, 3], [(oidSerial, SecProp.str "01")], ⟨some [0], some "T", none⟩⟩

/-- A sample context whose serial-number property carries a non-string type
kind. -/
def ctxSer : Context :=
  ⟨[], [(oidSerial, SecProp.sect [])], ⟨none, none, none⟩⟩

/-! ### Helper lemmas -/

/-- The source's section accessor agrees with the spec's section lookup on
every context: the Type-tag guard of `Context::get` is exactly the spec's
"of the expected structural kind" check. -/
theorem get_as_section_eq_specSection (c : Context) (oid : String) :
    c.get_as_section oid = specSection c oid := by
  unfold Context.get_as_section Context.get specSection
  cases h : c.dict.lookup oid with
  | none => rfl
  | some p =>
    cases p with
    | str s => simp [SecProp.typeTag, SecProp.value?]
    | sect es => simp [SecProp.typeTag, SecProp.value?]
    | other t =>
      by_cases ht : t = "section" <;> simp [SecProp.typeTag, SecProp.value?, ht]
    | missingType => rfl
    | missingValue t =>
      by_cases ht : t = "section" <;> simp [SecProp.typeTag, SecProp.value?, ht]

/-- On a section whose entries all carry labels, the source's scan agrees
with the spec's scan. -/
theorem getSubValue_eq_specScan (es : List SecEntry) (searchLabel : String)
    (h : ∀ e ∈ es, e.label.isSome) :
    getSubValue es searchLabel = specScan es searchLabel := by
  induction es with
  | nil => rfl
  | cons e rest ih =>
    have he : e.label.isSome := h e (by simp)
    cases hl : e.label with
    | none => rw [hl] at he; simp at he
    | some l =>
      simp only [getSubValue, specScan, hl, Option.some_bind]
      by_cases hcase : l = searchLabel <;>
        simp [hcase, ih fun e' he' => h e' (by simp [he'])]

/-- The source's scan skips an entry bearing a label different from the
searched one, wherever the entry sits. -/
theorem getSubValue_skips (es₁ es₂ : List SecEntry) (e : SecEntry)
    (l searchLabel : String) (hl : e.label = some l) (hne : l ≠ searchLabel) :
    getSubValue (es₁ ++ e :: es₂) searchLabel =
      getSubValue (es₁ ++ es₂) searchLabel := by
  induction es₁ with
  | nil => simp [getSubValue, hl, Option.some_bind, hne]
  | cons e₁ rest ih =>
    cases he₁ : e₁.label with
    | none => simp [getSubValue, he₁]
    | some l₁ =>
      simp only [List.cons_append, getSubValue, he₁, Option.some_bind]
      by_cases hcase : l₁ = searchLabel <;> simp [hcase, ih]

/-- The source's fold of `"\x7b:02x\x7d"`-formatted bytes onto an accumulator
is the accumulator followed by the concatenated hexadecimal pairs. -/
theorem foldl_hexByte_eq_flatMap (l : List Nat) (acc : List Char) :
    l.foldl (fun s byte => s ++ hexByte byte) (String.mk acc) =
      String.mk (acc ++ l.flatMap hexPair) := by
  induction l generalizing acc with
  | nil => simp
  | cons b rest ih =>
    have hstep : String.mk acc ++ hexByte b = String.mk (acc ++ hexPair b) := rfl
    simp only [List.foldl_cons, hstep, ih, List.flatMap_cons, List.append_assoc]

/-- A SHA-256 digest has 32 bytes. -/
theorem sha256_length (msg : List Nat) : (sha256 msg).length = 32 := by
  simp [sha256, bytesBE4]

/-- The concatenated hexadecimal pairs of `n` bytes have `2 * n`
characters. -/
theorem flatMap_hexPair_length (l : List Nat) :
    (l.flatMap hexPair).length = 2 * l.length := by
  induction l with
  | nil => rfl
  | cons b rest ih =>
    simp only [List.flatMap_cons, List.length_append, ih, hexPair,
      List.length_cons, List.length_nil, List.length_cons]
    ring

/-- `hexDigit` of a value below 16 is a lower-case hexadecimal character. -/
theorem hexDigit_mem_hexLowerChars (n : Nat) (h : n < 16) :
    hexDigit n ∈ hexLowerChars := by
  interval_cases n <;> decide

/-- Both characters of a hexadecimal pair are lower-case hexadecimal. -/
theorem hexPair_mem_hexLowerChars (b : Nat) (ch : Char) (h : ch ∈ hexPair b) :
    ch ∈ hexLowerChars := by
  simp only [hexPair, List.mem_cons, List.not_mem_nil, or_false] at h
  rcases h with h | h <;> subst h <;>
    exact hexDigit_mem_hexLowerChars _ (Nat.mod_lt _ (by norm_num))

/-- On a field whose section entries all carry labels, the source's
extraction agrees with the spec's extraction. -/
theorem name_for_field_eq_spec (c : Context) (oid : String)
    (h : ∀ e ∈ (c.get_as_section oid).getD [], e.label.isSome) :
    c.name_for_field oid = specNameForField c oid := by
  unfold Context.name_for_field specNameForField
  rw [← get_as_section_eq_specSection]
  cases hs : c.get_as_section oid with
  | none => rfl
  | some es =>
    rw [hs] at h
    simp only [Option.getD_some] at h
    simp [getSubValue_eq_specScan es _ h]

/-! ### Claim theorems -/

/-- Claim C1: for every `Context`, `subject_name` and `issuer_name` are
computed by looking up the subject (resp. issuer) property section by its
OID, then linearly scanning the section's entries for each of the four
recognized label OIDs, each looked up independently and not short-circuited;
entries whose label OID is not one of the four recognized ones are skipped by
the scan, and each found value is decoded as text.  (The hypotheses record
that the sections' entries carry label OIDs, the shape in which the platform
delivers distinguished-name sections and the shape the claim describes.) -/
theorem subject_issuer_follow_spec_extraction (c : Context)
    (hsub : ∀ e ∈ (c.get_as_section oidSubjectName).getD [], e.label.isSome)
    (hiss : ∀ e ∈ (c.get_as_section oidIssuerName).getD [], e.label.isSome) :
    c.subject_name = specNameForField c oidSubjectName ∧
    c.issuer_name = specNameForField c oidIssuerName ∧
    ∀ es₁ es₂ e l lbl, e.label = some l →
      l ∉ [oidCommonName, oidCountry, oidOrg, oidOrgUnit] →
      lbl ∈ [oidCommonName, oidCountry, oidOrg, oidOrgUnit] →
      getSubValue (es₁ ++ e :: es₂) lbl = getSubValue (es₁ ++ es₂) lbl := by
  refine ⟨name_for_field_eq_spec c oidSubjectName hsub,
    name_for_field_eq_spec c oidIssuerName hiss,
    fun es₁ es₂ e l lbl hl hnotin hin => ?_⟩
  exact getSubValue_skips es₁ es₂ e l lbl hl fun heq => hnotin (heq ▸ hin)

/-- Witness for claim C1 at a concrete context. -/
theorem subject_issuer_follow_spec_extraction_witness :
    wCtx.subject_name = specNameForField wCtx oidSubjectName ∧
    wCtx.issuer_name = specNameForField wCtx oidIssuerName :=
  ⟨(subject_issuer_follow_spec_extraction wCtx (by decide) (by decide)).1,
   (subject_issuer_follow_spec_extraction wCtx (by decide) (by decide)).2.1⟩

/-- When the code-directory hash is unavailable the whole auxiliary map is
`None` (the `?` on `cd_hash` in the source). -/
theorem additional_properties_of_cd_hash_none (c : Context)
    (h : c.cd_hash = none) : c.additional_properties = none := by
  unfold Context.additional_properties
  rw [h]
  rfl

/-- When the code-directory hash is available the returned map starts with
its `"cd_hash"` binding (the final `insert` of the source). -/
theorem additional_properties_of_cd_hash_some (c : Context) (cd : String)
    (h : c.cd_hash = some cd) :
    ∃ rest, c.additional_properties = some (("cd_hash", cd) :: rest) := by
  unfold Context.additional_properties
  rw [h]
  exact ⟨_, rfl⟩

/-- Claim C2: `additional_properties` returns `None` exactly when the
code-directory hash is unavailable; any returned map binds `"cd_hash"` and is
therefore never empty. -/
theorem additional_properties_none_iff_cd_hash (c : Context) :
    (c.additional_properties = none ↔ c.cd_hash = none) ∧
    ∀ m, c.additional_properties = some m →
      (m.lookup "cd_hash").isSome ∧ m ≠ [] := by
  cases hu : c.cd_hash with
  | none =>
    have hn := additional_properties_of_cd_hash_none c hu
    exact ⟨by simp [hn], fun m hm => absurd hm (by simp [hn])⟩
  | some cd =>
    obtain ⟨rest, hr⟩ := additional_properties_of_cd_hash_some c cd hu
    refine ⟨by simp [hr], fun m hm => ?_⟩
    rw [hr] at hm
    obtain rfl := Option.some.inj hm
    exact ⟨by simp [List.lookup], by simp⟩

/-- Witness for claim C2 at a concrete context. -/
theorem additional_properties_none_iff_cd_hash_witness :
    ((([("cd_hash", "0a")] : List (String × String)).lookup "cd_hash").isSome ∧
      ([("cd_hash", "0a")] : List (String × String)) ≠ []) ∧
    ctxCd.additional_properties = some [("cd_hash", "0a")] :=
  ⟨(additional_properties_none_iff_cd_hash ctxCd).2 [("cd_hash", "0a")]
      (by decide), by decide⟩

/-- Claim C3: `sha256_thumbprint` renders the SHA-256 digest of the
certificate's DER bytes as lower-case hexadecimal with no separators; the
digest has 32 bytes, the string 64 characters, all of them lower-case
hexadecimal digits, and the function is total (it returns a plain `String`
on every `Context`). -/
theorem sha256_thumbprint_renders_digest (c : Context) :
    c.sha256_thumbprint = String.mk ((sha256 c.cert).flatMap hexPair) ∧
    (sha256 c.cert).length = 32 ∧
    c.sha256_thumbprint.length = 64 ∧
    c.sha256_thumbprint.data.all (fun ch => hexLowerChars.contains ch) = true := by
  have h1 : c.sha256_thumbprint = String.mk ((sha256 c.cert).flatMap hexPair) := by
    have := foldl_hexByte_eq_flatMap (sha256 c.cert) []
    simpa [Context.sha256_thumbprint] using this
  refine ⟨h1, sha256_length c.cert, ?_, ?_⟩
  · rw [h1]
    show ((sha256 c.cert).flatMap hexPair).length = 64
    rw [flatMap_hexPair_length, sha256_length]
  · rw [h1]
    rw [List.all_eq_true]
    intro ch hch
    rw [List.mem_flatMap] at hch
    obtain ⟨b, _, hb⟩ := hch
    simpa [List.contains, hexLowerChars] using
      hexPair_mem_hexLowerChars b ch hb

/-- Claim C4: name extraction degrades per field and never raises: an absent
or structurally wrong section property yields a `Name` of four `None`s
(rather than an exception — the extraction is a total function), and when the
section is found each of the four fields is resolved by its own independent
scan of the section, so one field's decode failure leaves the other three
untouched. -/
theorem name_extraction_degrades_gracefully (c : Context) (field : String) :
    (c.dict.lookup field = none →
      c.name_for_field field = ⟨none, none, none, none⟩) ∧
    (∀ p, c.dict.lookup field = some p → p.typeTag ≠ some "section" →
      c.name_for_field field = ⟨none, none, none, none⟩) ∧
    (c.get_as_section field = none →
      c.name_for_field field = ⟨none, none, none, none⟩) ∧
    ∀ es, c.get_as_section field = some es →
      c.name_for_field field =
        ⟨getSubValue es oidCommonName, getSubValue es oidOrg,
         getSubValue es oidOrgUnit, getSubValue es oidCountry⟩ := by
  have hnone : c.get_as_section field = none →
      c.name_for_field field = ⟨none, none, none, none⟩ := by
    intro h
    simp [Context.name_for_field, h]
  refine ⟨?_, ?_, hnone, ?_⟩
  · intro h
    exact hnone (by simp [Context.get_as_section, Context.get, h])
  · intro p hp htag
    refine hnone ?_
    unfold Context.get_as_section Context.get
    rw [hp]
    cases ht : p.typeTag with
    | none => simp [ht]
    | some tag =>
      have hne : ¬ tag = "section" := fun heq => htag (by rw [ht, heq])
      simp [ht, hne]
  · intro es hs
    simp [Context.name_for_field, hs]

/-- Witness for claim C4: the common-name decode failure yields `None` for
that field alone; the other three fields are still resolved. -/
theorem name_extraction_degrades_gracefully_witness :
    wCtx4.name_for_field oidSubjectName =
      ⟨none, some "Acme", some "Unit", some "US"⟩ := by
  have h := (name_extraction_degrades_gracefully wCtx4 oidSubjectName).2.2.2
    wEs4 (by decide)
  rw [h]
  decide

/-- `additional_properties` decomposed into its three assembly steps. -/
theorem additional_properties_eq_blocks (c : Context) :
    c.additional_properties = c.cd_hash.map fun cd =>
      mapInsert (teamBlock c.team_id (plistBlock c.info_plist)) "cd_hash" cd := by
  cases hcd : c.cd_hash <;>
    (unfold Context.additional_properties; rw [hcd]; rfl)

/-- A member of `mapInsert m k v` is the new binding or a member of `m`. -/
theorem mem_mapInsert (m : List (String × String)) (k v : String)
    (p : String × String) (h : p ∈ mapInsert m k v) : p = (k, v) ∨ p ∈ m := by
  simp only [mapInsert, List.mem_cons, List.mem_filter] at h
  rcases h with h | ⟨h, _⟩
  · exact Or.inl h
  · exact Or.inr h

/-- Keys of one conditional insertion. -/
theorem keyStep_keys (infoPlist : List (String × String))
    (plistKey mapKey : String) (ret : List (String × String))
    (p : String × String) (hp : p ∈ keyStep infoPlist plistKey mapKey ret) :
    p.1 = mapKey ∨ p ∈ ret := by
  unfold keyStep at hp
  cases h : Context.key infoPlist plistKey with
  | none => rw [h] at hp; exact Or.inr hp
  | some v =>
    rw [h] at hp
    rcases mem_mapInsert _ _ _ _ hp with rfl | hp
    · exact Or.inl rfl
    · exact Or.inr hp

/-- Keys of the plist block. -/
theorem plistBlock_keys (ip : Option (List (String × String)))
    (p : String × String) (hp : p ∈ plistBlock ip) :
    p.1 ∈ ["bundle_id", "short_version", "bundle_version"] := by
  unfold plistBlock at hp
  cases ip with
  | none => exact absurd hp (by simp)
  | some infoPlist =>
    rcases keyStep_keys _ _ _ _ _ hp with h1 | hp
    · simp [h1]
    rcases keyStep_keys _ _ _ _ _ hp with h1 | hp
    · simp [h1]
    rcases keyStep_keys _ _ _ _ _ hp with h1 | hp
    · simp [h1]
    · exact absurd hp (by simp)

/-- Keys of the team-identifier step. -/
theorem teamBlock_keys (t : Option String) (ret : List (String × String))
    (p : String × String) (hp : p ∈ teamBlock t ret) :
    p.1 = "team_id" ∨ p ∈ ret := by
  unfold teamBlock at hp
  cases t with
  | none => exact Or.inr hp
  | some teamId =>
    rcases mem_mapInsert _ _ _ _ hp with rfl | hp
    · exact Or.inl rfl
    · exact Or.inr hp

/-- A key bound in no member of an association list looks up to `none`. -/
theorem lookup_eq_none_of_keys (m : List (String × String)) (k : String)
    (h : ∀ p ∈ m, p.1 ≠ k) : m.lookup k = none := by
  induction m with
  | nil => rfl
  | cons q rest ih =>
    obtain ⟨a, b⟩ := q
    have ha : a ≠ k := h (a, b) (by simp)
    rw [List.lookup_cons]
    have : (k == a) = false := by
      simp [ha.symm]
    rw [this]
    exact ih fun p hp => h p (by simp [hp])

/-- Every key of a map produced by `additional_properties` is one of the
five keys the source inserts. -/
theorem additional_properties_keys (c : Context) (m : List (String × String))
    (h : c.additional_properties = some m) (p : String × String) (hp : p ∈ m) :
    p.1 ∈ ["bundle_id", "short_version", "bundle_version", "team_id",
      "cd_hash"] := by
  rw [additional_properties_eq_blocks] at h
  cases hcd : c.cd_hash with
  | none => rw [hcd] at h; exact absurd h (by simp)
  | some cd =>
    rw [hcd] at h
    obtain rfl := Option.some.inj h
    rcases mem_mapInsert _ _ _ _ hp with rfl | hp
    · simp
    · rcases teamBlock_keys _ _ _ hp with h1 | hp
      · simp [h1]
      · have := plistBlock_keys _ _ hp
        simp only [List.mem_cons, List.not_mem_nil, or_false] at this ⊢
        tauto

/-- No call of `additional_properties` ever produces a `"platform_id"`
binding: the source inserts only `bundle_id`, `short_version`,
`bundle_version`, `team_id` and `cd_hash`. -/
theorem additional_properties_never_platform_id (c : Context)
    (m : List (String × String)) (h : c.additional_properties = some m) :
    m.lookup "platform_id" = none := by
  refine lookup_eq_none_of_keys m "platform_id" fun p hp hk => ?_
  have := additional_properties_keys c m h p hp
  rw [hk] at this
  simp at this

/-- Claim C5: evaluated at the test's own input, `additional_properties`
returns a map without any `"platform_id"` binding, while the repository's
test asserts the key is present — the code never inserts `platform_id`. -/
theorem additional_properties_platform_id_missing :
    pingContext.additional_properties =
      some [("cd_hash", "aee97b850a12f9cac3ec399094071cad63325818")] ∧
    (pingContext.additional_properties.getD []).lookup "platform_id" = none :=
  ⟨by decide, by decide⟩

/-- Claim C6: every method of the public façade is a direct forward to the
platform implementation — its result equals the platform method's result on
the wrapped value, with identical error cases and no additional state or
failure modes introduced by the wrapper. -/
theorem facade_direct_forward (env : OsEnv) (path : String) (pid : Int)
    (v : CodeSignVerifier) (req : String) (s : SignatureContext) :
    CodeSignVerifier.for_file env path =
      (Verifier.for_file env path).map CodeSignVerifier.mk ∧
    CodeSignVerifier.for_pid env pid =
      (Verifier.for_pid env pid).map CodeSignVerifier.mk ∧
    v.verify req = (v.inner.verify req).map SignatureContext.mk ∧
    (∀ e, CodeSignVerifier.for_file env path = Except.error e ↔
      Verifier.for_file env path = Except.error e) ∧
    (∀ w, CodeSignVerifier.for_file env path = Except.ok w ↔
      Verifier.for_file env path = Except.ok w.inner) ∧
    (∀ e, CodeSignVerifier.for_pid env pid = Except.error e ↔
      Verifier.for_pid env pid = Except.error e) ∧
    (∀ w, CodeSignVerifier.for_pid env pid = Except.ok w ↔
      Verifier.for_pid env pid = Except.ok w.inner) ∧
    (∀ e, v.verify req = Except.error e ↔
      v.inner.verify req = Except.error e) ∧
    (∀ sc, v.verify req = Except.ok sc ↔
      v.inner.verify req = Except.ok sc.inner) ∧
    s.subject_name = s.inner.subject_name ∧
    s.issuer_name = s.inner.issuer_name ∧
    s.sha256_thumbprint = s.inner.sha256_thumbprint ∧
    s.serial = s.inner.serial ∧
    s.additional_properties = s.inner.additional_properties := by
  refine ⟨rfl, rfl, rfl, fun e => ?_, fun w => ?_, fun e => ?_, fun w => ?_,
    fun e => ?_, fun sc => ?_, rfl, rfl, rfl, rfl, rfl⟩ <;>
    [cases h : Verifier.for_file env path;
     (obtain ⟨wi⟩ := w; cases h : Verifier.for_file env path);
     cases h : Verifier.for_pid env pid;
     (obtain ⟨wi⟩ := w; cases h : Verifier.for_pid env pid);
     cases h : v.inner.verify req;
     (obtain ⟨sci⟩ := sc; cases h : v.inner.verify req)] <;>
    simp [CodeSignVerifier.for_file, CodeSignVerifier.for_pid,
      CodeSignVerifier.verify, h, Except.map]

/-- Claim C8: `sha256_thumbprint` is a pure function of the certificate's
DER bytes: two contexts with the same certificate bytes yield the same
thumbprint string (so repeated calls on one context are stable). -/
theorem sha256_thumbprint_deterministic (c₁ c₂ : Context)
    (h : c₁.cert = c₂.cert) :
    c₁.sha256_thumbprint = c₂.sha256_thumbprint := by
  unfold Context.sha256_thumbprint
  rw [h]

/-- Witness for claim C8 at two concrete contexts that differ everywhere but
in their certificate bytes. -/
theorem sha256_thumbprint_deterministic_witness :
    ctxA.sha256_thumbprint = ctxB.sha256_thumbprint :=
  sha256_thumbprint_deterministic ctxA ctxB rfl

/-- Claim C9: equality on `Name` is structural — two names are equal exactly
when the four fields agree pairwise. -/
theorem name_eq_structural (n₁ n₂ : Name) :
    n₁ = n₂ ↔ (n₁.common_name = n₂.common_name ∧
      n₁.organization = n₂.organization ∧
      n₁.organization_unit = n₂.organization_unit ∧
      n₁.country = n₂.country) := by
  obtain ⟨a₁, b₁, c₁, d₁⟩ := n₁
  obtain ⟨a₂, b₂, c₂, d₂⟩ := n₂
  simp [Name.mk.injEq]

/-- Claim C10: `serial()` returns `None` when the serial-number property is
absent, and also when it is present with a declared type kind other than
`"string"`; a value is returned only when the property is a `"string"`-tagged
string. -/
theorem serial_requires_string_tag (c : Context) :
    (c.dict.lookup oidSerial = none → c.serial = none) ∧
    (∀ p, c.dict.lookup oidSerial = some p → p.typeTag ≠ some "string" →
      c.serial = none) ∧
    ∀ s, c.serial = some s → c.dict.lookup oidSerial = some (SecProp.str s) := by
  refine ⟨?_, ?_, ?_⟩
  · intro h
    simp [Context.serial, Context.get_as_string, Context.get, h]
  · intro p hp htag
    unfold Context.serial Context.get_as_string Context.get
    rw [hp]
    cases ht : p.typeTag with
    | none => simp [ht]
    | some tag =>
      have hne : ¬ tag = "string" := fun heq => htag (by rw [ht, heq])
      simp [ht, hne]
  · intro s hs
    unfold Context.serial Context.get_as_string Context.get at hs
    cases hp : c.dict.lookup oidSerial with
    | none => rw [hp] at hs; exact absurd hs (by simp)
    | some p =>
      rw [hp] at hs
      cases p with
      | str s₀ =>
        simp only [SecProp.typeTag, SecProp.value?, Option.some_bind,
          if_pos rfl] at hs
        simp_all
      | sect es => simp [SecProp.typeTag, SecProp.value?] at hs
      | other tag =>
        by_cases htag : tag = "string" <;>
          simp [SecProp.typeTag, SecProp.value?, htag] at hs
      | missingType => simp [SecProp.typeTag] at hs
      | missingValue tag =>
        by_cases htag : tag = "string" <;>
          simp [SecProp.typeTag, SecProp.value?, htag] at hs

/-- Witness for claim C10 at a concrete context: a `"section"`-tagged serial
property yields `None`. -/
theorem serial_requires_string_tag_witness :
    ctxSer.dict.lookup oidSerial = some (SecProp.sect []) ∧
    ctxSer.serial = none :=
  ⟨by decide,
   (serial_requires_string_tag ctxSer).2.1 (SecProp.sect []) (by decide)
     (by decide)⟩
